import Mathlib

/-!
# Verification of the `ccd` directory picker (src/main.rs)

A shallow embedding of the core of `ccd-pick`: the usage-frequency store
(`FrequencyManager`), the candidate collector / ranker (`DirectorySearcher`)
and the interactive session state machine (`App`), together with proofs of
the specification's testable properties.

Modelling conventions:
* Rust `HashMap<String, u32>` is modelled as an association list
  `List (String × Nat)`; `insert` overwrites (cons + erase of the old
  binding) and `remove` erases the binding, so `List.lookup` gives the
  map's observable behaviour.  Values are `u32`, i.e. naturals below `2^32`;
  arithmetic that can wrap is taken modulo `2^32`.
* The external `locate` invocation and the filesystem are oracles passed in
  as parameters (`Option (List String)` for the locate output, with `none`
  standing for a failure to launch the subprocess, and `String → Bool`
  predicates for `is_dir` / `exists`).
* File I/O for the store is modelled explicitly: the on-disk file is either
  absent, existing-but-unopenable, or a sequence of line reads each of which
  may fail with an I/O error (`BufRead::lines` yields `io::Result<String>`).
-/

/-- Error kinds of the program (`enum CddError` in src/main.rs). -/
inductive CddError where
  | locateCommand (msg : String)
  | noDirectoriesFound
  | directoryNotFound (path : String)
  | ioError
deriving DecidableEq, Repr

/-- One candidate directory with its historical selection count
(`struct DirectoryEntry`). -/
structure DirectoryEntry where
  path : String
  count : Nat
deriving DecidableEq, Repr

instance : Inhabited DirectoryEntry := ⟨⟨"", 0⟩⟩

/-- Result of a search (`struct SearchResult`). -/
structure SearchResult where
  directories : List DirectoryEntry
  files_filtered : Nat
deriving DecidableEq, Repr

/-- View modes of the interactive interface (`enum ViewMode`). -/
inductive ViewMode where
  | Search
  | Frequent
deriving DecidableEq, Repr

/-- Navigation events (`enum NavigationDirection`). -/
inductive NavigationDirection where
  | next
  | previous
  | pageUp
  | pageDown
  | first
  | last
deriving DecidableEq, Repr

/-- `const PAGE_SIZE: usize = 10`. -/
def PAGE_SIZE : Nat := 10

/-- The comparator passed to `sort_by` in `DirectorySearcher::sort_directories`
(and, verbatim, in `App::show_frequent_directories`):
`b.count.cmp(&a.count).then(a.path.len().cmp(&b.path.len()))`.
`entryLe a b` holds exactly when the comparator does not put `a` after `b`,
i.e. when `cmp(a, b) ≠ Greater`. -/
def entryLe (a b : DirectoryEntry) : Bool :=
  decide (b.count < a.count) ||
    (decide (a.count = b.count) && decide (a.path.length ≤ b.path.length))

namespace DirectorySearcher

/-- `DirectorySearcher::sort_directories`: sort by usage count descending,
breaking ties by path length ascending.  Rust's `sort_by` is a stable merge
sort; `List.mergeSort` has the same stable-sort semantics. -/
def sort_directories (directories : List DirectoryEntry) : List DirectoryEntry :=
  directories.mergeSort entryLe

end DirectorySearcher

/-! ## Association-list model of `HashMap<String, u32>` -/

/-- `HashMap::insert`: bind `k` to `v`, overwriting any previous binding. -/
def hmInsert (m : List (String × Nat)) (k : String) (v : Nat) :
    List (String × Nat) :=
  (k, v) :: m.eraseP (fun e => e.1 == k)

/-- `HashMap::remove`: drop the binding of `k`, if any. -/
def hmRemove (m : List (String × Nat)) (k : String) : List (String × Nat) :=
  m.eraseP (fun e => e.1 == k)

/-! ## Serialization of the usage store (`FrequencyManager`) -/

/-- Decimal rendering of a `u32` count, as written by
`writeln!(file, "{count}\t{path}")`: base-10 digits, most significant first. -/
def natToChars (n : Nat) : List Char :=
  if n = 0 then ['0'] else ((Nat.digits 10 n).map Nat.digitChar).reverse

/-- An ASCII decimal digit, or `none`. -/
def charToDigit? (c : Char) : Option Nat :=
  if '0' ≤ c ∧ c ≤ '9' then some (c.toNat - '0'.toNat) else none

/-- Accumulate decimal digits left to right; `none` on any non-digit. -/
def parseDigitsAux : List Char → Nat → Option Nat
  | [], acc => some acc
  | c :: rest, acc =>
    match charToDigit? c with
    | some d => parseDigitsAux rest (acc * 10 + d)
    | none => none

/-- `str::parse::<u32>` accepts an optional leading `+` sign. -/
def stripPlus (l : List Char) : List Char :=
  match l with
  | c :: rest => if c = '+' then rest else l
  | [] => l

/-- `count_str.parse::<u32>()`: optional `+`, then one or more ASCII digits,
value below `2 ^ 32`. -/
def parseU32 (l : List Char) : Option Nat :=
  let body := stripPlus l
  if body = [] then none
  else
    match parseDigitsAux body 0 with
    | some v => if v < 2 ^ 32 then some v else none
    | none => none

/-- `str::split_once(sep)`: split at the first occurrence of `sep`. -/
def splitOnce (sep : Char) : List Char → Option (List Char × List Char)
  | [] => none
  | c :: rest =>
    if c = sep then some ([], rest)
    else
      match splitOnce sep rest with
      | some (pre, post) => some (c :: pre, post)
      | none => none

/-- The line-parsing step of `FrequencyManager::load`:
`line.split_once('\t')` then `count_str.parse::<u32>()`. -/
def parseLine (line : String) : Option (String × Nat) :=
  match splitOnce '\t' line.data with
  | some (countStr, pathStr) =>
    match parseU32 countStr with
    | some c => some (String.mk pathStr, c)
    | none => none
  | none => none

/-- One item of `BufRead::lines`: an `io::Result<String>`. -/
inductive LineRead where
  | ok (line : String)
  | ioError
deriving DecidableEq, Repr

/-- The store file as seen by `FrequencyManager::load`: it may be absent
(`File::open` fails with not-found), existing but unopenable (`File::open`
fails, e.g. permission denied), or readable, yielding a sequence of line
reads each of which can fail mid-stream. -/
inductive StoreFile where
  | absent
  | unreadable
  | readable (reads : List LineRead)
deriving DecidableEq, Repr

namespace FrequencyManager

/-- The per-line body of the `for line in reader.lines()` loop of
`FrequencyManager::load`: a well-formed `"<count>\t<path>"` line is inserted,
a malformed one (missing tab or non-numeric count) is skipped. -/
def loadStep (m : List (String × Nat)) (line : String) : List (String × Nat) :=
  match parseLine line with
  | some (p, c) => hmInsert m p c
  | none => m

/-- The `for line in reader.lines()` loop of `FrequencyManager::load`:
`line?` propagates a read error; well-formed lines are inserted, malformed
ones are skipped. -/
def loadReads : List LineRead → List (String × Nat) →
    Except CddError (List (String × Nat))
  | [], m => .ok m
  | .ioError :: _, _ => .error .ioError
  | .ok line :: rest, m => loadReads rest (loadStep m line)

/-- `FrequencyManager::load`: `if let Ok(file) = fs::File::open(..)` swallows
every open failure (absent or unreadable file alike) and yields the empty
map; only a failing line read inside the loop is an error. -/
def load (f : StoreFile) : Except CddError (List (String × Nat)) :=
  match f with
  | .absent => .ok []
  | .unreadable => .ok []
  | .readable reads => loadReads reads []

/-- The pure content of the load loop on successfully-read lines. -/
def loadLines (lines : List String) : List (String × Nat) :=
  lines.foldl loadStep []

/-- `FrequencyManager::save`: the bytes written to the store file, one
`"<count>\t<path>\n"` record per entry, in map-iteration order. -/
def save (frequency_map : List (String × Nat)) : List Char :=
  frequency_map.foldr
    (fun e acc => natToChars e.2 ++ '\t' :: e.1.data ++ '\n' :: acc) []

end FrequencyManager

/-- `BufRead::lines` strips a final `"\r\n"` entirely: the `'\r'` is dropped
only when the line was terminated by `'\n'`. -/
def stripCR (l : List Char) : List Char :=
  if l.getLast? = some '\r' then l.dropLast else l

/-- Split file content on `'\n'` the way `BufRead::lines` does: each
`'\n'`-terminated segment is yielded with a trailing `'\r'` stripped; a final
unterminated segment is yielded as-is; no trailing empty line. -/
def splitLinesAux (acc : List Char) : List Char → List (List Char)
  | [] => if acc = [] then [] else [acc.reverse]
  | c :: rest =>
    if c = '\n' then stripCR acc.reverse :: splitLinesAux [] rest
    else splitLinesAux (c :: acc) rest

/-- The successful line reads produced by reading a file whose raw content
is `content`. -/
def readsOfFile (content : List Char) : List LineRead :=
  (splitLinesAux [] content).map (fun l => LineRead.ok (String.mk l))

/-- Value of a big-endian digit list continued from an accumulator. -/
def valBE : List Nat → Nat → Nat
  | [], acc => acc
  | d :: rest, acc => valBE rest (acc * 10 + d)

/-! ## Candidate Collector (`DirectorySearcher::search`) -/

/-- `str::starts_with` on character lists. -/
def startsWithChars : List Char → List Char → Bool
  | _, [] => true
  | [], _ :: _ => false
  | h :: hs, n :: ns => h == n && startsWithChars hs ns

/-- `str::contains(&str)`: substring containment on character lists. -/
def containsChars : List Char → List Char → Bool
  | [], needle => needle.isEmpty
  | c :: hs, needle => startsWithChars (c :: hs) needle || containsChars hs needle

namespace DirectorySearcher

/-- The deduplicated union of directory candidates built by
`DirectorySearcher::search`: directories among the locate output, plus
usage-store keys that contain the pattern as a case-insensitive substring
and still resolve to directories (`unique_paths` in the source). -/
def candidate_union (locateOutput : List String) (isDir : String → Bool)
    (pattern : String) (frequency_map : List (String × Nat)) : List String :=
  (locateOutput.filter isDir ++
    (frequency_map.map Prod.fst).filter
      (fun path =>
        containsChars path.toLower.data pattern.toLower.data && isDir path)).dedup

/-- `DirectorySearcher::search`.  `locateResult = none` models a failure to
launch the `locate` subprocess; `some out` is its stdout split into lines.
Non-directory matches are counted into `files_filtered`; if no directory
candidate survives from either source the distinct `NoDirectoriesFound`
error is returned, otherwise the candidates are paired with their usage
counts (default 0) and sorted. -/
def search (locateResult : Option (List String)) (isDir : String → Bool)
    (pattern : String) (frequency_map : List (String × Nat)) :
    Except CddError SearchResult :=
  match locateResult with
  | none => .error (.locateCommand "Failed to execute locate")
  | some out =>
    let files_filtered := (out.filter (fun p => !isDir p)).length
    let unique_paths := candidate_union out isDir pattern frequency_map
    if unique_paths.isEmpty then .error .noDirectoriesFound
    else
      .ok ⟨sort_directories (unique_paths.map
          (fun path => ⟨path, (frequency_map.lookup path).getD 0⟩)),
        files_filtered⟩

end DirectorySearcher

/-! ## Session Controller: bookmark, increment, reset, one-shot search -/

/-- What `bookmark_current_directory` reports on stderr. -/
inductive BookmarkMsg where
  | bookmarked
  | alreadyBookmarked
deriving DecidableEq, Repr

/-- `bookmark_current_directory` after loading the store: insert the current
directory with count 1 only if absent (`!frequency_map.contains_key`), then
save; if present, leave the map untouched and report "already bookmarked".
The `Bool` records whether `FrequencyManager::save` was invoked. -/
def bookmark_current_directory (current_dir : String)
    (frequency_map : List (String × Nat)) :
    List (String × Nat) × Bool × BookmarkMsg :=
  if !(frequency_map.lookup current_dir).isSome then
    (hmInsert frequency_map current_dir 1, true, .bookmarked)
  else
    (frequency_map, false, .alreadyBookmarked)

namespace FrequencyManager

/-- `FrequencyManager::increment`: load the store, compute
`frequency_map.get(path).unwrap_or(&0) + 1` and insert it back, then save.
The addition is `u32` arithmetic: in a release build it wraps modulo
`2 ^ 32` (a debug build would abort on overflow instead); either way the
stored value is not `old + 1` when `old = 2 ^ 32 - 1`. -/
def increment (store : List (String × Nat)) (path : String) :
    List (String × Nat) :=
  hmInsert store path (((store.lookup path).getD 0 + 1) % 2 ^ 32)

end FrequencyManager

/-- The Usage Store mutation performed by `App::reset_frequency`:
`self.frequency_map.remove(&path)`, after which the map is saved. -/
def reset_frequency_map (frequency_map : List (String × Nat)) (path : String) :
    List (String × Nat) :=
  hmRemove frequency_map path

/-- `search_and_change_directory` (one-shot mode): load the store, search,
pick the top-ranked entry, re-check that it still exists and is a directory,
and print it.  The function is paired with the store file it leaves behind:
the one-shot flow only ever reads the store (`FrequencyManager::load`),
never writes it. -/
def search_and_change_directory (locateResult : Option (List String))
    (isDir existsOnDisk : String → Bool) (search_pattern : String)
    (store : List (String × Nat)) :
    Except CddError String × List (String × Nat) :=
  let frequency_map := store
  match DirectorySearcher.search locateResult isDir search_pattern frequency_map with
  | .error e => (.error e, store)
  | .ok search_result =>
    let target_dir := (search_result.directories.headD default).path
    if !existsOnDisk target_dir then
      (.error (.directoryNotFound target_dir), store)
    else if !isDir target_dir then
      (.error (.directoryNotFound target_dir), store)
    else
      (.ok target_dir, store)

/-! ## Interactive session state machine (`struct App`) -/

/-- The environment of an interactive session: the `locate` output for each
pattern (`none` = failure to launch), the filesystem's `is_dir` oracle, and
whether `FrequencyManager::save` succeeds. -/
structure Env where
  locate : String → Option (List String)
  isDir : String → Bool
  saveOk : Bool

/-- The mutable state of `struct App` (the `ratatui` `ListState` is carried
as its selected index). -/
structure AppState where
  input : String
  directories : List DirectoryEntry
  selected : Option Nat
  should_quit : Bool
  user_selected : Bool
  frequency_map : List (String × Nat)
  view_mode : ViewMode
  files_filtered : Nat

namespace App

/-- `App::get_selected_directory`:
`self.list_state.selected().and_then(|i| self.directories.get(i)).map(path)`. -/
def get_selected_directory (s : AppState) : Option String :=
  s.selected.bind (fun i => (s.directories[i]?).map (fun e => e.path))

/-- The selection reset appearing at the end of both
`App::search_directories` and `App::show_frequent_directories`:
select index 0 when there are results, nothing otherwise. -/
def select_reset (s : AppState) : AppState :=
  if s.directories.isEmpty then { s with selected := none }
  else { s with selected := some 0 }

/-- `App::search_directories`: empty input clears everything; otherwise run
`DirectorySearcher::search`; `NoDirectoriesFound` clears the list; any other
error returns early leaving the list and selection untouched (the callers
all discard the error). -/
def search_directories (env : Env) (s : AppState) : AppState :=
  if s.input = "" then
    { s with directories := [], files_filtered := 0, selected := none }
  else
    match DirectorySearcher.search (env.locate s.input) env.isDir s.input
        s.frequency_map with
    | .ok search_result =>
      select_reset { s with
                      directories := search_result.directories
                      files_filtered := search_result.files_filtered }
    | .error .noDirectoriesFound =>
      select_reset { s with directories := [], files_filtered := 0 }
    | .error _ => s

/-- `App::calculate_next_index`. -/
def calculate_next_index (s : AppState) : Nat :=
  match s.selected with
  | some i => if i ≥ s.directories.length - 1 then 0 else i + 1
  | none => 0

/-- `App::calculate_previous_index`. -/
def calculate_previous_index (s : AppState) : Nat :=
  match s.selected with
  | some 0 => s.directories.length - 1
  | some i => i - 1
  | none => 0

/-- `App::calculate_page_up_index`. -/
def calculate_page_up_index (s : AppState) : Nat :=
  match s.selected with
  | some i => if i ≥ PAGE_SIZE then i - PAGE_SIZE else 0
  | none => 0

/-- `App::calculate_page_down_index`. -/
def calculate_page_down_index (s : AppState) : Nat :=
  match s.selected with
  | some i =>
    if i + PAGE_SIZE ≥ s.directories.length then s.directories.length - 1
    else i + PAGE_SIZE
  | none => 0

/-- `App::navigate`: a no-op on an empty list, otherwise select the index
computed for the direction. -/
def navigate (s : AppState) (direction : NavigationDirection) : AppState :=
  if s.directories.isEmpty then s
  else
    { s with selected := some (match direction with
        | .next => calculate_next_index s
        | .previous => calculate_previous_index s
        | .pageUp => calculate_page_up_index s
        | .pageDown => calculate_page_down_index s
        | .first => 0
        | .last => s.directories.length - 1) }

/-- `App::show_frequent_directories`: all store entries with count > 0 that
still resolve to directories, sorted with the Ranker's comparator, filtered
by the current input as a case-insensitive substring, selection reset. -/
def show_frequent_directories (env : Env) (s : AppState) : AppState :=
  let frequent_dirs :=
    ((s.frequency_map.filter
        (fun e => decide (0 < e.2) && env.isDir e.1)).map
      (fun e => DirectoryEntry.mk e.1 e.2)).mergeSort entryLe
  let frequent_dirs :=
    if s.input = "" then frequent_dirs
    else frequent_dirs.filter
      (fun entry => containsChars entry.path.toLower.data s.input.toLower.data)
  select_reset { s with directories := frequent_dirs }

/-- `App::toggle_view_mode`. -/
def toggle_view_mode (env : Env) (s : AppState) : AppState :=
  match s.view_mode with
  | .Search => show_frequent_directories env { s with view_mode := .Frequent }
  | .Frequent =>
    let s := { s with view_mode := .Search }
    if s.input ≠ "" then search_directories env s
    else { s with directories := [], selected := none }

/-- `App::reset_frequency`: if a row is selected, remove its path from the
frequency map and save; on a save failure the `?` returns early (the caller
ignores the error) leaving the list untouched.  In `Frequent` view the row
is removed and the selection re-clamped; in `Search` view the row's count is
zeroed, the list re-sorted, and the selection follows the same path. -/
def reset_frequency (env : Env) (s : AppState) : AppState :=
  match get_selected_directory s with
  | none => s
  | some path =>
    let selected_index := s.selected.getD 0
    let s := { s with frequency_map := hmRemove s.frequency_map path }
    if !env.saveOk then s
    else
      match s.view_mode with
      | .Frequent =>
        let dirs := s.directories.eraseIdx selected_index
        { s with
            directories := dirs
            selected :=
              if dirs.isEmpty then none
              else if selected_index ≥ dirs.length then some (dirs.length - 1)
              else some selected_index }
      | .Search =>
        let dirs :=
          match s.directories[selected_index]? with
          | some entry => s.directories.set selected_index { entry with count := 0 }
          | none => s.directories
        let dirs := dirs.mergeSort entryLe
        { s with
            directories := dirs
            selected :=
              match dirs.findIdx? (fun entry => entry.path == path) with
              | some new_index => some new_index
              | none => s.selected }

/-- `App::handle_character_input`: push the character, then re-run the
current view's search. -/
def handle_character_input (env : Env) (c : Char) (s : AppState) : AppState :=
  let s := { s with input := s.input.push c }
  match s.view_mode with
  | .Search => search_directories env s
  | .Frequent => show_frequent_directories env s

/-- `App::handle_backspace`: pop the last character, then re-run the current
view's search. -/
def handle_backspace (env : Env) (s : AppState) : AppState :=
  let s := { s with input := String.mk s.input.data.dropLast }
  match s.view_mode with
  | .Search => search_directories env s
  | .Frequent => show_frequent_directories env s

end App

/-- The discrete input events of the interactive loop (`run_app`) that touch
the result list or selection. -/
inductive InputEvent where
  | char (c : Char)
  | backspace
  | nav (direction : NavigationDirection)
  | toggleView
  | resetFrequency
deriving DecidableEq, Repr

/-- Dispatch of one input event, as in `run_app`'s `match key.code`. -/
def handle_event (env : Env) (e : InputEvent) (s : AppState) : AppState :=
  match e with
  | .char c => App.handle_character_input env c s
  | .backspace => App.handle_backspace env s
  | .nav d => App.navigate s d
  | .toggleView => App.toggle_view_mode env s
  | .resetFrequency => App.reset_frequency env s

/-- Where `run_interactive_mode` delivers the selected path. -/
inductive Delivery where
  | fd3
  | stdout
deriving DecidableEq, Repr

/-- The tail of `run_interactive_mode` after the loop exits without error:
if the user confirmed a selection, increment that path's count in the store
(via `FrequencyManager::increment`, which re-loads and saves the file) and
write the path to file descriptor 3 if it is open, else to standard output;
otherwise deliver nothing (the process then exits 1). -/
def finish_interactive (s : AppState) (store : List (String × Nat))
    (fd3Open : Bool) : List (String × Nat) × Option (Delivery × String) :=
  if s.user_selected then
    match App.get_selected_directory s with
    | some selected_dir =>
      (FrequencyManager.increment store selected_dir,
        some (if fd3Open then Delivery.fd3 else Delivery.stdout, selected_dir))
    | none => (store, none)
  else (store, none)

/-- A session state that has confirmed the selection of `"/a"`. -/
def selectedApp : AppState :=
  { input := ""
    directories := [⟨"/a", 0⟩]
    selected := some 0
    should_quit := true
    user_selected := true
    frequency_map := []
    view_mode := .Search
    files_filtered := 0 }

/-- A 3-item session state, selection on the last row. -/
def nav3App : AppState :=
  { input := "p"
    directories := [⟨"/a", 2⟩, ⟨"/b", 1⟩, ⟨"/c", 0⟩]
    selected := some 2
    should_quit := false
    user_selected := false
    frequency_map := []
    view_mode := .Search
    files_filtered := 0 }

/-! ## The session-state invariant (C10) -/

/-- The invariant of the interactive session state: a selected index always
points inside the current result list, and an empty list carries no
selection. -/
def AppInv (s : AppState) : Prop :=
  (∀ i, s.selected = some i → i < s.directories.length) ∧
  (s.directories = [] → s.selected = none)

/-- An environment whose locate always fails, with no directories on disk
and failing saves. -/
def envNone : Env :=
  { locate := fun _ => none
    isDir := fun _ => false
    saveOk := false }

theorem entryLe_trans (a b c : DirectoryEntry) :
    entryLe a b → entryLe b c → entryLe a c := by
  simp only [entryLe, Bool.or_eq_true, Bool.and_eq_true, decide_eq_true_eq]
  omega

theorem entryLe_total (a b : DirectoryEntry) : entryLe a b || entryLe b a := by
  simp only [entryLe, Bool.or_eq_true, Bool.and_eq_true, decide_eq_true_eq]
  omega

/-- **C1.** The Ranker's output is ordered: for any adjacent pair `(a, b)`,
either `a.count > b.count`, or `a.count = b.count` and
`a.path.length ≤ b.path.length`; and the output is a deterministic function
of the input. -/
theorem ranker_output_sorted (l : List DirectoryEntry) :
    (DirectorySearcher.sort_directories l).Chain'
      (fun a b => a.count > b.count ∨
        (a.count = b.count ∧ a.path.length ≤ b.path.length)) ∧
    ∀ l', l = l' →
      DirectorySearcher.sort_directories l = DirectorySearcher.sort_directories l' := by
  constructor
  · have hp : (l.mergeSort entryLe).Pairwise (fun a b => entryLe a b) :=
      List.sorted_mergeSort entryLe_trans entryLe_total l
    have hp' : (l.mergeSort entryLe).Pairwise
        (fun a b => a.count > b.count ∨
          (a.count = b.count ∧ a.path.length ≤ b.path.length)) := by
      refine hp.imp ?_
      intro a b hab
      simpa [entryLe, Bool.or_eq_true, Bool.and_eq_true, decide_eq_true_eq] using hab
    exact hp'.chain'
  · intro l' h
    rw [h]

theorem lookup_eraseP_ne (m : List (String × Nat)) (k k' : String)
    (h : k' ≠ k) : (m.eraseP (fun e => e.1 == k)).lookup k' = m.lookup k' := by
  induction m with
  | nil => rfl
  | cons e t ih =>
    rw [List.eraseP_cons]
    by_cases he : e.1 = k
    · have h1 : (fun e : String × Nat => e.1 == k) e = true := by simp [he]
      have h2 : (k' == e.1) = false := by simp [he, h]
      obtain ⟨e1, e2⟩ := e
      simp only at h1 h2
      simp [h1, List.lookup, h2]
    · have h1 : (fun e : String × Nat => e.1 == k) e = false := by simp [he]
      obtain ⟨e1, e2⟩ := e
      simp only at h1
      by_cases hk' : k' = e1
      · simp [h1, List.lookup, hk']
      · have h2 : (k' == e1) = false := by simp [hk']
        simp [h1, List.lookup, h2, ih]

theorem lookup_hmInsert_self (m : List (String × Nat)) (k : String) (v : Nat) :
    (hmInsert m k v).lookup k = some v := by
  simp [hmInsert, List.lookup]

theorem lookup_hmInsert_ne (m : List (String × Nat)) (k k' : String) (v : Nat)
    (h : k' ≠ k) : (hmInsert m k v).lookup k' = m.lookup k' := by
  have : (k' == k) = false := by simp [h]
  simp [hmInsert, List.lookup, this, lookup_eraseP_ne m k k' h]

theorem eraseP_key_of_not_mem (m : List (String × Nat)) (k : String)
    (h : k ∉ m.map Prod.fst) : m.eraseP (fun e => e.1 == k) = m := by
  refine List.eraseP_of_forall_not ?_
  intro e he
  simp only [beq_iff_eq]
  intro hek
  exact h (List.mem_map.mpr ⟨e, he, hek⟩)

/-! ## Round-trip lemmas for the store serialization -/

theorem charToDigit?_digitChar (d : Nat) (h : d < 10) :
    charToDigit? (Nat.digitChar d) = some d := by
  interval_cases d <;> decide

theorem digitChar_ne_special (d : Nat) (h : d < 10) :
    Nat.digitChar d ≠ '\t' ∧ Nat.digitChar d ≠ '\n' ∧
      Nat.digitChar d ≠ '\r' ∧ Nat.digitChar d ≠ '+' := by
  interval_cases d <;> decide

theorem valBE_append (xs ys : List Nat) (acc : Nat) :
    valBE (xs ++ ys) acc = valBE ys (valBE xs acc) := by
  induction xs generalizing acc with
  | nil => rfl
  | cons d xs ih => simp [valBE, ih]

theorem valBE_reverse (L : List Nat) (acc : Nat) :
    valBE L.reverse acc = acc * 10 ^ L.length + Nat.ofDigits 10 L := by
  induction L generalizing acc with
  | nil => simp [valBE, Nat.ofDigits]
  | cons d L ih =>
    rw [List.reverse_cons, valBE_append, ih]
    simp only [valBE, Nat.ofDigits_cons, List.length_cons, pow_succ]
    ring

theorem parseDigitsAux_map_digitChar (ds : List Nat) (acc : Nat)
    (h : ∀ d ∈ ds, d < 10) :
    parseDigitsAux (ds.map Nat.digitChar) acc = some (valBE ds acc) := by
  induction ds generalizing acc with
  | nil => rfl
  | cons d ds ih =>
    have hd : d < 10 := h d (by simp)
    simp only [List.map_cons, parseDigitsAux, charToDigit?_digitChar d hd, valBE]
    exact ih _ (fun x hx => h x (by simp [hx]))

theorem parseDigitsAux_natToChars (n : Nat) :
    parseDigitsAux (natToChars n) 0 = some n := by
  by_cases h0 : n = 0
  · subst h0; decide
  · rw [natToChars, if_neg h0, ← List.map_reverse]
    rw [parseDigitsAux_map_digitChar _ 0
      (fun d hd => Nat.digits_lt_base (by norm_num) (List.mem_reverse.mp hd))]
    rw [valBE_reverse]
    simp [Nat.ofDigits_digits]

theorem natToChars_ne_nil (n : Nat) : natToChars n ≠ [] := by
  by_cases h0 : n = 0
  · subst h0; decide
  · rw [natToChars, if_neg h0]
    simp [Nat.digits_ne_nil_iff_ne_zero.mpr h0]

theorem mem_natToChars (n : Nat) (c : Char) (hc : c ∈ natToChars n) :
    c ≠ '\t' ∧ c ≠ '\n' ∧ c ≠ '\r' ∧ c ≠ '+' := by
  by_cases h0 : n = 0
  · subst h0
    rw [natToChars, if_pos rfl] at hc
    simp only [List.mem_singleton] at hc
    subst hc; decide
  · rw [natToChars, if_neg h0, List.mem_reverse, List.mem_map] at hc
    obtain ⟨d, hd, hdc⟩ := hc
    subst hdc
    exact digitChar_ne_special d (Nat.digits_lt_base (by norm_num) hd)

theorem stripPlus_eq_self (l : List Char) (h : ∀ c ∈ l, c ≠ '+') :
    stripPlus l = l := by
  cases l with
  | nil => rfl
  | cons c rest => simp [stripPlus, h c (by simp)]

theorem parseU32_natToChars (n : Nat) (h : n < 2 ^ 32) :
    parseU32 (natToChars n) = some n := by
  have hplus : stripPlus (natToChars n) = natToChars n :=
    stripPlus_eq_self _ (fun c hc => (mem_natToChars n c hc).2.2.2)
  simp only [parseU32, hplus]
  rw [if_neg (natToChars_ne_nil n), parseDigitsAux_natToChars n]
  exact if_pos h

theorem splitOnce_append (sep : Char) (pre post : List Char)
    (h : sep ∉ pre) : splitOnce sep (pre ++ sep :: post) = some (pre, post) := by
  induction pre with
  | nil => simp [splitOnce]
  | cons c cs ih =>
    have hc : ¬(c = sep) := fun e => h (by simp [e])
    simp only [List.cons_append, splitOnce, if_neg hc]
    rw [show cs.append (sep :: post) = cs ++ sep :: post from rfl,
      ih (fun hmem => h (by simp [hmem]))]

theorem stripCR_eq_self (l : List Char) (h : ∀ c ∈ l, c ≠ '\r') :
    stripCR l = l := by
  rw [stripCR, if_neg]
  intro hl
  exact h '\r' (List.mem_of_mem_getLast? (hl ▸ rfl : '\r' ∈ l.getLast?)) rfl

theorem splitLinesAux_append_newline (line rest : List Char) (acc : List Char)
    (h : '\n' ∉ line) :
    splitLinesAux acc (line ++ '\n' :: rest) =
      stripCR (acc.reverse ++ line) :: splitLinesAux [] rest := by
  induction line generalizing acc with
  | nil => simp [splitLinesAux]
  | cons c cs ih =>
    have hc : ¬(c = '\n') := fun e => h (by simp [e])
    simp only [List.cons_append, splitLinesAux, if_neg hc]
    rw [show cs.append ('\n' :: rest) = cs ++ '\n' :: rest from rfl,
      ih (c :: acc) (fun hm => h (by simp [hm]))]
    simp

theorem splitLinesAux_save (entries : List (String × Nat))
    (hkeys : ∀ e ∈ entries, ∀ c ∈ e.1.data, c ≠ '\t' ∧ c ≠ '\n' ∧ c ≠ '\r') :
    splitLinesAux [] (FrequencyManager.save entries) =
      entries.map (fun e => natToChars e.2 ++ '\t' :: e.1.data) := by
  induction entries with
  | nil => rfl
  | cons e t ih =>
    have hsave : FrequencyManager.save (e :: t) =
        (natToChars e.2 ++ '\t' :: e.1.data) ++ '\n' :: FrequencyManager.save t := by
      simp [FrequencyManager.save]
    have hmem : ∀ c ∈ natToChars e.2 ++ '\t' :: e.1.data,
        c ≠ '\n' ∧ c ≠ '\r' := by
      intro c hc
      rcases List.mem_append.mp hc with hc | hc
      · exact ⟨(mem_natToChars _ c hc).2.1, (mem_natToChars _ c hc).2.2.1⟩
      · rcases List.mem_cons.mp hc with hc | hc
        · subst hc; exact ⟨by decide, by decide⟩
        · exact ⟨(hkeys e (by simp) c hc).2.1, (hkeys e (by simp) c hc).2.2⟩
    rw [hsave, splitLinesAux_append_newline _ _ []
      (fun hm => (hmem '\n' hm).1 rfl)]
    rw [ih (fun x hx => hkeys x (by simp [hx]))]
    simp only [List.reverse_nil, List.nil_append, List.map_cons]
    rw [stripCR_eq_self _ (fun c hc => (hmem c hc).2)]

theorem loadReads_map_ok (lines : List String) (m : List (String × Nat)) :
    FrequencyManager.loadReads (lines.map LineRead.ok) m =
      .ok (lines.foldl FrequencyManager.loadStep m) := by
  induction lines generalizing m with
  | nil => rfl
  | cons l t ih => simp only [List.map_cons, FrequencyManager.loadReads, ih,
      List.foldl_cons]

theorem parseLine_save_line (p : String) (c : Nat) (hc : c < 2 ^ 32) :
    parseLine (String.mk (natToChars c ++ '\t' :: p.data)) = some (p, c) := by
  have htab : '\t' ∉ natToChars c := fun hm => (mem_natToChars c _ hm).1 rfl
  simp only [parseLine]
  rw [splitOnce_append '\t' _ _ htab]
  simp only [parseU32_natToChars c hc]

theorem lookup_eq_none_of_not_mem_keys (m : List (String × Nat)) (k : String)
    (h : k ∉ m.map Prod.fst) : m.lookup k = none := by
  induction m with
  | nil => rfl
  | cons e t ih =>
    have hk : ¬(k = e.1) := fun hke => h (by simp [hke])
    have hb : (k == e.1) = false := by simp [hk]
    obtain ⟨e1, e2⟩ := e
    simp only at hb
    simp only [List.lookup, hb]
    exact ih (fun hm => h (by simp at hm ⊢; exact Or.inr hm))

theorem foldl_insert_lookup (entries : List (String × Nat)) :
    ∀ (m : List (String × Nat)), (entries.map Prod.fst).Nodup → ∀ k,
      (entries.foldl (fun m e => hmInsert m e.1 e.2) m).lookup k =
        if k ∈ entries.map Prod.fst then entries.lookup k else m.lookup k := by
  induction entries with
  | nil => intro m _ k; simp
  | cons e t ih =>
    intro m hnd k
    rw [List.map_cons, List.nodup_cons] at hnd
    have hnd' : (t.map Prod.fst).Nodup := hnd.2
    have hhead : e.1 ∉ t.map Prod.fst := hnd.1
    simp only [List.foldl_cons]
    rw [ih _ hnd' k]
    by_cases hk : k ∈ t.map Prod.fst
    · have hne : ¬(k = e.1) := fun hke => hhead (hke ▸ hk)
      have hb : (k == e.1) = false := by simp [hne]
      rw [if_pos hk, if_pos (by simp [hk])]
      obtain ⟨e1, e2⟩ := e
      simp only at hb
      simp [List.lookup, hb]
    · rw [if_neg hk]
      by_cases hke : k = e.1
      · subst hke
        rw [if_pos (by simp), lookup_hmInsert_self]
        obtain ⟨e1, e2⟩ := e
        simp [List.lookup]
      · rw [if_neg (by simp [hk, hke]), lookup_hmInsert_ne _ _ _ _ hke]

theorem loadLines_save_entries (entries : List (String × Nat))
    (hvals : ∀ e ∈ entries, e.2 < 2 ^ 32) : ∀ m,
    (entries.map (fun e => String.mk (natToChars e.2 ++ '\t' :: e.1.data))).foldl
        FrequencyManager.loadStep m =
      entries.foldl (fun m e => hmInsert m e.1 e.2) m := by
  induction entries with
  | nil => intro m; rfl
  | cons e t ih =>
    intro m
    have hstep : FrequencyManager.loadStep m
        (String.mk (natToChars e.2 ++ '\t' :: e.1.data)) = hmInsert m e.1 e.2 := by
      rw [FrequencyManager.loadStep,
        parseLine_save_line e.1 e.2 (hvals e (by simp))]
    simp only [List.map_cons, List.foldl_cons, hstep]
    exact ih (fun x hx => hvals x (by simp [hx])) _

theorem loadReads_error_iff (reads : List LineRead) : ∀ m,
    (FrequencyManager.loadReads reads m = .error CddError.ioError ↔
      LineRead.ioError ∈ reads) := by
  induction reads with
  | nil => intro m; simp [FrequencyManager.loadReads]
  | cons r t ih =>
    intro m
    cases r with
    | ioError => simp [FrequencyManager.loadReads]
    | ok line => simp [FrequencyManager.loadReads, ih]

theorem loadLines_filter (lines : List String) : ∀ m,
    lines.foldl FrequencyManager.loadStep m =
      (lines.filter (fun l => (parseLine l).isSome)).foldl
        FrequencyManager.loadStep m := by
  induction lines with
  | nil => intro m; rfl
  | cons l t ih =>
    intro m
    by_cases hl : (parseLine l).isSome
    · rw [List.foldl_cons, List.filter_cons_of_pos (by simpa using hl),
        List.foldl_cons]
      exact ih _
    · have hnone : parseLine l = none := Option.not_isSome_iff_eq_none.mp hl
      have hid : FrequencyManager.loadStep m l = m := by
        rw [FrequencyManager.loadStep, hnone]
      rw [List.foldl_cons, hid, List.filter_cons_of_neg (by simpa using hl)]
      exact ih _

/-- **C2 counterexample.** A store file that exists but cannot be opened for
reading (`fs::File::open` fails, e.g. with `PermissionDenied`) does NOT make
`load` fail: the `if let Ok(file) = fs::File::open(..)` silently skips the
whole read and `load` returns an empty mapping, contradicting the claim that
`load` fails exactly when the file exists but cannot be read. -/
theorem load_unreadable_is_ok :
    FrequencyManager.load StoreFile.unreadable = Except.ok [] ∧
      ∀ e : CddError, FrequencyManager.load StoreFile.unreadable ≠ Except.error e := by
  exact ⟨rfl, fun e h => by simp [FrequencyManager.load] at h⟩

/-- **C2 (amended).** `load` skips every malformed line without error and
never fails on content; an absent store file yields an empty mapping, and so
does a file that exists but cannot be opened (the open failure is silently
swallowed); `load` returns an I/O error exactly when the file opens
successfully and one of its line reads fails. -/
theorem load_error_handling :
    (FrequencyManager.load StoreFile.absent = Except.ok []) ∧
    (FrequencyManager.load StoreFile.unreadable = Except.ok []) ∧
    (∀ lines : List String,
      FrequencyManager.load (StoreFile.readable (lines.map LineRead.ok)) =
        Except.ok (FrequencyManager.loadLines lines)) ∧
    (∀ lines : List String,
      FrequencyManager.loadLines lines =
        FrequencyManager.loadLines (lines.filter (fun l => (parseLine l).isSome))) ∧
    (∀ reads : List LineRead,
      (FrequencyManager.load (StoreFile.readable reads) = Except.error CddError.ioError ↔
        LineRead.ioError ∈ reads)) := by
  refine ⟨rfl, rfl, ?_, ?_, ?_⟩
  · intro lines
    exact loadReads_map_ok lines []
  · intro lines
    exact loadLines_filter lines []
  · intro reads
    exact loadReads_error_iff reads []

/-- **C3.** Save/load round-trip: for every mapping (distinct keys, values
of `u32` range) whose keys contain no tab and no newline characters (LF or
CR — `BufRead::lines` also strips a carriage return before the line feed,
so CR is a line-ending character for the loader), writing the store file
with `save` and reading it back with `load` succeeds and yields a mapping
semantically equal to the original. -/
theorem save_load_roundtrip (entries : List (String × Nat))
    (hnodup : (entries.map Prod.fst).Nodup)
    (hkeys : ∀ e ∈ entries, ∀ c ∈ e.1.data, c ≠ '\t' ∧ c ≠ '\n' ∧ c ≠ '\r')
    (hvals : ∀ e ∈ entries, e.2 < 2 ^ 32) :
    ∃ loaded,
      FrequencyManager.load
          (StoreFile.readable (readsOfFile (FrequencyManager.save entries))) =
        Except.ok loaded ∧
      ∀ k, loaded.lookup k = entries.lookup k := by
  have hreads : readsOfFile (FrequencyManager.save entries) =
      (entries.map (fun e => String.mk (natToChars e.2 ++ '\t' :: e.1.data))).map
        LineRead.ok := by
    rw [readsOfFile, splitLinesAux_save entries hkeys, List.map_map, List.map_map]
    rfl
  refine ⟨entries.foldl (fun m e => hmInsert m e.1 e.2) [], ?_, ?_⟩
  · have hload : FrequencyManager.load
        (StoreFile.readable (readsOfFile (FrequencyManager.save entries))) =
        FrequencyManager.loadReads (readsOfFile (FrequencyManager.save entries)) [] := rfl
    rw [hload, hreads, loadReads_map_ok, loadLines_save_entries entries hvals []]
  · intro k
    rw [foldl_insert_lookup entries [] hnodup k]
    by_cases hk : k ∈ entries.map Prod.fst
    · rw [if_pos hk]
    · rw [if_neg hk, List.lookup_nil, lookup_eq_none_of_not_mem_keys entries k hk]

/-- **C4.** `DirectorySearcher::search` returns the distinct
`NoDirectoriesFound` outcome iff the deduplicated union of directory
candidates from the locate output and the usage-store scan is empty, and it
never returns a successful result with an empty directory list. -/
theorem search_noDirectoriesFound_iff (locateResult : Option (List String))
    (isDir : String → Bool) (pattern : String)
    (frequency_map : List (String × Nat)) :
    (∀ out, locateResult = some out →
      (DirectorySearcher.search locateResult isDir pattern frequency_map =
          Except.error CddError.noDirectoriesFound ↔
        DirectorySearcher.candidate_union out isDir pattern frequency_map = [])) ∧
    (∀ r, DirectorySearcher.search locateResult isDir pattern frequency_map =
        Except.ok r → r.directories ≠ []) := by
  constructor
  · intro out hout
    subst hout
    simp only [DirectorySearcher.search]
    by_cases hu :
      (DirectorySearcher.candidate_union out isDir pattern frequency_map).isEmpty
    · rw [if_pos hu]
      simp [List.isEmpty_iff.mp hu]
    · rw [if_neg hu]
      constructor
      · intro h
        exact absurd h (by simp)
      · intro h
        exact absurd (List.isEmpty_iff.mpr h) hu
  · intro r hr
    cases hl : locateResult with
    | none =>
      rw [hl] at hr
      simp [DirectorySearcher.search] at hr
    | some out =>
      rw [hl] at hr
      simp only [DirectorySearcher.search] at hr
      by_cases hu :
        (DirectorySearcher.candidate_union out isDir pattern frequency_map).isEmpty
      · rw [if_pos hu] at hr
        simp at hr
      · rw [if_neg hu] at hr
        have hr' := (Except.ok.injEq _ _).mp hr
        intro hnil
        have hlen : r.directories.length = 0 := by rw [hnil]; rfl
        rw [← hr'] at hlen
        simp only [DirectorySearcher.sort_directories, List.length_mergeSort,
          List.length_map] at hlen
        exact hu (List.isEmpty_iff.mpr (List.length_eq_zero.mp hlen))

/-- **C4 witness.** With an empty locate output, an empty store and a
filesystem with no directories, `search` reports `NoDirectoriesFound`. -/
theorem search_noDirectoriesFound_iff_witness :
    DirectorySearcher.search (some []) (fun _ => false) "pro" [] =
      Except.error CddError.noDirectoriesFound :=
  ((search_noDirectoriesFound_iff (some []) (fun _ => false) "pro" []).1
    [] rfl).mpr rfl

/-- **C5.** Bookmarking when the current directory is absent from the store
inserts it with count exactly 1 (all other keys untouched) and saves;
bookmarking when it is already present, at any count, leaves the store
completely unchanged, performs no save, and reports "already bookmarked". -/
theorem bookmark_spec (frequency_map : List (String × Nat)) (d : String) :
    (frequency_map.lookup d = none →
      (bookmark_current_directory d frequency_map).1.lookup d = some 1 ∧
      (∀ k, k ≠ d → (bookmark_current_directory d frequency_map).1.lookup k =
        frequency_map.lookup k) ∧
      (bookmark_current_directory d frequency_map).2.1 = true ∧
      (bookmark_current_directory d frequency_map).2.2 = BookmarkMsg.bookmarked) ∧
    (∀ c, frequency_map.lookup d = some c →
      bookmark_current_directory d frequency_map =
        (frequency_map, false, BookmarkMsg.alreadyBookmarked)) := by
  constructor
  · intro habs
    have hcond : (!(frequency_map.lookup d).isSome) = true := by
      rw [habs]; rfl
    simp only [bookmark_current_directory, hcond, if_true]
    exact ⟨lookup_hmInsert_self frequency_map d 1,
      fun k hk => lookup_hmInsert_ne frequency_map d k 1 hk,
      by trivial, by trivial⟩
  · intro c hc
    have hcond : (!(frequency_map.lookup d).isSome) = false := by
      rw [hc]; rfl
    simp only [bookmark_current_directory, hcond, Bool.false_eq_true, if_false]

/-- **C5 witness.** Bookmarking `"/home/x"` into an empty store yields count
exactly 1; bookmarking it again over a store where it sits at count 5
changes nothing and reports "already bookmarked". -/
theorem bookmark_spec_witness :
    (bookmark_current_directory "/home/x" []).1.lookup "/home/x" = some 1 ∧
    bookmark_current_directory "/home/x" [("/home/x", 5)] =
      ([("/home/x", 5)], false, BookmarkMsg.alreadyBookmarked) :=
  ⟨((bookmark_spec [] "/home/x").1 rfl).1,
    (bookmark_spec [("/home/x", 5)] "/home/x").2 5 (by rfl)⟩

theorem not_mem_keys_hmRemove (m : List (String × Nat)) (p : String)
    (h : (m.map Prod.fst).Nodup) : p ∉ (hmRemove m p).map Prod.fst := by
  induction m with
  | nil => simp [hmRemove]
  | cons e t ih =>
    rw [List.map_cons, List.nodup_cons] at h
    by_cases he : e.1 = p
    · have hpos : (e.1 == p) = true := by simp [he]
      rw [hmRemove, List.eraseP_cons, hpos, cond_true]
      simpa [he] using h.1
    · have hneg : (e.1 == p) = false := by simp [he]
      rw [hmRemove, List.eraseP_cons, hneg, cond_false]
      simp only [List.map_cons, List.mem_cons]
      rintro (hpe | hpt)
      · exact he hpe.symm
      · exact ih h.2 hpt

/-- **C6.** Resetting a path's frequency twice in a row yields the same
store state as resetting it once: after the first reset the path has no
binding left (the store's keys are unique), so the second removal finds
nothing to remove and is a no-op; no error arises either way. -/
theorem reset_frequency_idempotent (m : List (String × Nat)) (p : String)
    (h : (m.map Prod.fst).Nodup) :
    reset_frequency_map (reset_frequency_map m p) p =
      reset_frequency_map m p := by
  exact eraseP_key_of_not_mem _ _ (not_mem_keys_hmRemove m p h)

/-- **C6 witness.** Resetting `"/a"` twice over the store `{"/a": 3}`
equals resetting it once. -/
theorem reset_frequency_idempotent_witness :
    reset_frequency_map (reset_frequency_map [("/a", 3)] "/a") "/a" =
      reset_frequency_map [("/a", 3)] "/a" :=
  reset_frequency_idempotent [("/a", 3)] "/a" (by simp)

/-- **C7 counterexample.** The claim promises the chosen path's count is
always incremented by 1, but the counter is a `u32`: when the stored count
is `u32::MAX = 2 ^ 32 - 1`, `FrequencyManager::increment` computes
`count + 1` in `u32` arithmetic, which wraps to 0 in a release build (a
debug build aborts), so the persisted count is 0, not `old + 1`. -/
theorem selected_increment_overflow :
    selectedApp.user_selected = true ∧
    App.get_selected_directory selectedApp = some "/a" ∧
    (finish_interactive selectedApp [("/a", 2 ^ 32 - 1)] false).1.lookup "/a" =
      some 0 ∧
    some 0 ≠ some (2 ^ 32 - 1 + 1) := by
  refine ⟨rfl, rfl, ?_, by norm_num⟩
  have hfin : (finish_interactive selectedApp [("/a", 2 ^ 32 - 1)] false).1 =
      FrequencyManager.increment [("/a", 2 ^ 32 - 1)] "/a" := rfl
  rw [hfin, FrequencyManager.increment]
  have hlook : List.lookup "/a" [("/a", 2 ^ 32 - 1)] = some (2 ^ 32 - 1) := by
    simp [List.lookup]
  rw [hlook]
  have hmod : ((2 ^ 32 - 1 : Nat) + 1) % 2 ^ 32 = 0 := by norm_num
  simp only [Option.getD_some, hmod]
  exact lookup_hmInsert_self _ _ _

/-- **C7 (amended).** Whenever the interactive loop exits in the `Selected`
terminal state (`user_selected` with a row selected) with chosen path `p`,
and `p`'s stored count is below `u32::MAX` (so the `u32` increment does not
wrap), the Usage Store's count for `p` is incremented by exactly 1 and
persisted with every other key untouched, and `p` is delivered to file
descriptor 3 if it is open, else to standard output. -/
theorem selected_increments_and_delivers (s : AppState)
    (store : List (String × Nat)) (fd3Open : Bool) (p : String)
    (hsel : s.user_selected = true)
    (hp : App.get_selected_directory s = some p)
    (hcnt : (store.lookup p).getD 0 + 1 < 2 ^ 32) :
    (finish_interactive s store fd3Open).1.lookup p =
      some ((store.lookup p).getD 0 + 1) ∧
    (∀ k, k ≠ p → (finish_interactive s store fd3Open).1.lookup k =
      store.lookup k) ∧
    (finish_interactive s store fd3Open).2 =
      some (if fd3Open then Delivery.fd3 else Delivery.stdout, p) := by
  simp only [finish_interactive, hsel, if_true, hp]
  rw [FrequencyManager.increment, Nat.mod_eq_of_lt hcnt]
  exact ⟨lookup_hmInsert_self store p _,
    fun k hk => lookup_hmInsert_ne store p k _ hk, by trivial⟩

/-- **C7 witness.** Confirming `"/a"` over an empty store and an open fd 3
persists count 1 and delivers `"/a"` on fd 3. -/
theorem selected_increments_and_delivers_witness :
    (finish_interactive selectedApp [] true).1.lookup "/a" =
      some ((List.lookup "/a" ([] : List (String × Nat))).getD 0 + 1) ∧
    (finish_interactive selectedApp [] true).2 =
      some (if true then Delivery.fd3 else Delivery.stdout, "/a") :=
  ⟨(selected_increments_and_delivers selectedApp [] true "/a" rfl rfl
      (by norm_num)).1,
    (selected_increments_and_delivers selectedApp [] true "/a" rfl rfl
      (by norm_num)).2.2⟩

/-- **C8.** A one-shot search never mutates the Usage Store: whatever the
outcome (success, `NoDirectoriesFound`, locate failure, vanished target),
`search_and_change_directory` leaves the store file exactly as loaded — the
flow contains no save or increment. -/
theorem one_shot_leaves_store (locateResult : Option (List String))
    (isDir existsOnDisk : String → Bool) (search_pattern : String)
    (store : List (String × Nat)) :
    (search_and_change_directory locateResult isDir existsOnDisk
        search_pattern store).2 = store := by
  simp only [search_and_change_directory]
  cases DirectorySearcher.search locateResult isDir search_pattern store with
  | error e => rfl
  | ok r =>
    split
    · rfl
    · split
      · rfl
      · split <;> rfl

/-- **C9.** Navigation wraparound on a non-empty list of length `n`: with no
selection `Next` selects index 0; from index `n - 1`, `Next` wraps to 0;
from index 0, `Previous` wraps to `n - 1`. -/
theorem navigation_wraparound (s : AppState) (n : Nat)
    (hlen : s.directories.length = n) (hn : 0 < n) :
    (s.selected = none → (App.navigate s .next).selected = some 0) ∧
    (s.selected = some (n - 1) → (App.navigate s .next).selected = some 0) ∧
    (s.selected = some 0 → (App.navigate s .previous).selected = some (n - 1)) := by
  have hne : s.directories.isEmpty = false := by
    cases hd : s.directories.isEmpty
    · rfl
    · exfalso
      rw [List.isEmpty_iff.mp hd] at hlen
      simp at hlen
      omega
  have hiff : ¬(s.directories.isEmpty = true) := by simp [hne]
  refine ⟨?_, ?_, ?_⟩ <;> intro hsel
  · rw [App.navigate, if_neg hiff]
    simp only [App.calculate_next_index, hsel]
  · rw [App.navigate, if_neg hiff]
    simp only [App.calculate_next_index, hsel, hlen]
    simp
  · rw [App.navigate, if_neg hiff]
    simp only [App.calculate_previous_index, hsel, hlen]

/-- **C9 witness.** On a 3-item list, `Next` from index 2 wraps to index 0
and `Previous` from index 0 wraps to index 2. -/
theorem navigation_wraparound_witness :
    (App.navigate nav3App .next).selected = some 0 ∧
    (App.navigate { nav3App with selected := some 0 } .previous).selected =
      some 2 :=
  ⟨(navigation_wraparound nav3App 3 rfl (by norm_num)).2.1 rfl,
    (navigation_wraparound { nav3App with selected := some 0 } 3 rfl
      (by norm_num)).2.2 rfl⟩

/-- **C1 witness.** Sortedness and determinism at a concrete entry list. -/
theorem ranker_output_sorted_witness :
    (DirectorySearcher.sort_directories
        [⟨"/bb", 1⟩, ⟨"/a", 1⟩, ⟨"/c", 2⟩]).Chain'
      (fun a b => a.count > b.count ∨
        (a.count = b.count ∧ a.path.length ≤ b.path.length)) ∧
    DirectorySearcher.sort_directories [⟨"/bb", 1⟩, ⟨"/a", 1⟩, ⟨"/c", 2⟩] =
      DirectorySearcher.sort_directories [⟨"/bb", 1⟩, ⟨"/a", 1⟩, ⟨"/c", 2⟩] :=
  ⟨(ranker_output_sorted _).1, (ranker_output_sorted _).2 _ rfl⟩

/-- **C3 witness.** The round-trip at the concrete store `{"/a": 1}`. -/
theorem save_load_roundtrip_witness :
    ∃ loaded,
      FrequencyManager.load
          (StoreFile.readable (readsOfFile (FrequencyManager.save [("/a", 1)]))) =
        Except.ok loaded ∧
      ∀ k, loaded.lookup k = [("/a", 1)].lookup k :=
  save_load_roundtrip [("/a", 1)] (by simp) (by decide) (by decide)

theorem appInv_select_reset (s : AppState) : AppInv (App.select_reset s) := by
  rw [App.select_reset]
  by_cases h : s.directories.isEmpty
  · rw [if_pos h]
    exact ⟨fun i hi => by simp at hi, fun _ => rfl⟩
  · rw [if_neg h]
    have hpos : 0 < s.directories.length :=
      List.length_pos.mpr (by simpa [List.isEmpty_iff] using h)
    constructor
    · intro i hi
      cases Option.some.inj hi
      exact hpos
    · intro hnil
      exact absurd (List.isEmpty_iff.mpr hnil) h

theorem appInv_input_cleared (s : AppState) :
    AppInv { s with directories := [], files_filtered := 0, selected := none } :=
  ⟨fun i hi => by simp at hi, fun _ => rfl⟩

theorem appInv_search_directories (env : Env) (s : AppState) (h : AppInv s) :
    AppInv (App.search_directories env s) := by
  rw [App.search_directories]
  by_cases hin : s.input = ""
  · rw [if_pos hin]
    exact appInv_input_cleared s
  · rw [if_neg hin]
    cases DirectorySearcher.search (env.locate s.input) env.isDir s.input
        s.frequency_map with
    | ok r => exact appInv_select_reset _
    | error e =>
      cases e with
      | noDirectoriesFound => exact appInv_select_reset _
      | locateCommand msg => exact h
      | directoryNotFound p => exact h
      | ioError => exact h

theorem calculate_next_index_lt (s : AppState)
    (hpos : 0 < s.directories.length) :
    App.calculate_next_index s < s.directories.length := by
  rw [App.calculate_next_index]
  split
  · split
    · exact hpos
    · omega
  · exact hpos

theorem calculate_previous_index_lt (s : AppState)
    (hpos : 0 < s.directories.length)
    (hinv : ∀ i, s.selected = some i → i < s.directories.length) :
    App.calculate_previous_index s < s.directories.length := by
  rw [App.calculate_previous_index]
  split
  · omega
  · next i heq =>
    have hh := hinv _ heq
    omega
  · exact hpos

theorem calculate_page_up_index_lt (s : AppState)
    (hpos : 0 < s.directories.length)
    (hinv : ∀ i, s.selected = some i → i < s.directories.length) :
    App.calculate_page_up_index s < s.directories.length := by
  rw [App.calculate_page_up_index]
  split
  · next i heq =>
    have hh := hinv _ heq
    split
    · omega
    · exact hpos
  · exact hpos

theorem calculate_page_down_index_lt (s : AppState)
    (hpos : 0 < s.directories.length) :
    App.calculate_page_down_index s < s.directories.length := by
  rw [App.calculate_page_down_index]
  split
  · split
    · omega
    · omega
  · exact hpos

theorem appInv_navigate (s : AppState) (d : NavigationDirection) (h : AppInv s) :
    AppInv (App.navigate s d) := by
  rw [App.navigate.eq_def]
  by_cases he : s.directories.isEmpty
  · rw [if_pos he]
    exact h
  · rw [if_neg he]
    have hpos : 0 < s.directories.length :=
      List.length_pos.mpr (by simpa [List.isEmpty_iff] using he)
    constructor
    · intro i hi
      cases d with
      | next =>
        cases Option.some.inj hi
        exact calculate_next_index_lt s hpos
      | previous =>
        cases Option.some.inj hi
        exact calculate_previous_index_lt s hpos h.1
      | pageUp =>
        cases Option.some.inj hi
        exact calculate_page_up_index_lt s hpos h.1
      | pageDown =>
        cases Option.some.inj hi
        exact calculate_page_down_index_lt s hpos
      | first =>
        cases Option.some.inj hi
        exact hpos
      | last =>
        cases Option.some.inj hi
        exact Nat.sub_lt hpos Nat.one_pos
    · intro hnil
      exact absurd (List.isEmpty_iff.mpr hnil) he

theorem appInv_show_frequent (env : Env) (s : AppState) :
    AppInv (App.show_frequent_directories env s) := by
  rw [App.show_frequent_directories]
  exact appInv_select_reset _

theorem appInv_toggle (env : Env) (s : AppState) (h : AppInv s) :
    AppInv (App.toggle_view_mode env s) := by
  rw [App.toggle_view_mode]
  cases s.view_mode with
  | Search => exact appInv_show_frequent env _
  | Frequent =>
    by_cases hin : ({ s with view_mode := ViewMode.Search }).input ≠ ""
    · rw [if_pos hin]
      exact appInv_search_directories env _ ⟨h.1, h.2⟩
    · rw [if_neg hin]
      exact ⟨fun i hi => by simp at hi, fun _ => rfl⟩

theorem appInv_reset_frequency (env : Env) (s : AppState) (h : AppInv s) :
    AppInv (App.reset_frequency env s) := by
  rw [App.reset_frequency.eq_def]
  cases hsel : App.get_selected_directory s with
  | none => exact h
  | some path =>
    obtain ⟨i, hi⟩ : ∃ i, s.selected = some i := by
      rw [App.get_selected_directory] at hsel
      cases hs : s.selected with
      | none => rw [hs] at hsel; simp at hsel
      | some i => exact ⟨i, rfl⟩
    have hilen : i < s.directories.length := h.1 i hi
    have hgetD : s.selected.getD 0 = i := by rw [hi]; rfl
    simp only [hgetD]
    cases hsave : env.saveOk with
    | false => exact ⟨h.1, h.2⟩
    | true =>
      simp only [Bool.not_true, Bool.false_eq_true, if_false]
      cases hvm : s.view_mode with
      | Frequent =>
        constructor
        · intro j hj
          have hj' : (if (s.directories.eraseIdx i).isEmpty then none
              else if i ≥ (s.directories.eraseIdx i).length then
                some ((s.directories.eraseIdx i).length - 1)
              else some i) = some j := hj
          show j < (s.directories.eraseIdx i).length
          by_cases hemp : (s.directories.eraseIdx i).isEmpty
          · rw [if_pos hemp] at hj'
            exact absurd hj' (by simp)
          · rw [if_neg hemp] at hj'
            have hpos : 0 < (s.directories.eraseIdx i).length :=
              List.length_pos.mpr (by simpa [List.isEmpty_iff] using hemp)
            by_cases hge : i ≥ (s.directories.eraseIdx i).length
            · rw [if_pos hge] at hj'
              cases Option.some.inj hj'
              omega
            · rw [if_neg hge] at hj'
              cases Option.some.inj hj'
              omega
        · intro hnil
          have hnil' : s.directories.eraseIdx i = [] := hnil
          show (if (s.directories.eraseIdx i).isEmpty then none
              else if i ≥ (s.directories.eraseIdx i).length then
                some ((s.directories.eraseIdx i).length - 1)
              else some i) = none
          rw [if_pos (by simp [hnil'])]
      | Search =>
        cases hget : s.directories[i]? with
        | none =>
          exact absurd hget (by simp [List.getElem?_eq_getElem hilen])
        | some entry =>
          have hlen : ((s.directories.set i
              { entry with count := 0 }).mergeSort entryLe).length =
              s.directories.length := by
            rw [List.length_mergeSort, List.length_set]
          constructor
          · intro j hj
            have hj' : (match (s.directories.set i
                  { entry with count := 0 }).mergeSort entryLe
                    |>.findIdx? (fun e => e.path == path) with
                | some new_index => some new_index
                | none => s.selected) = some j := hj
            show j < ((s.directories.set i
              { entry with count := 0 }).mergeSort entryLe).length
            cases hfi : (s.directories.set i
                { entry with count := 0 }).mergeSort entryLe
                  |>.findIdx? (fun e => e.path == path) with
            | some new_index =>
              rw [hfi] at hj'
              simp only at hj'
              cases Option.some.inj hj'
              exact (List.findIdx?_eq_some_iff_findIdx_eq.mp hfi).1
            | none =>
              rw [hfi] at hj'
              simp only at hj'
              rw [hi] at hj'
              cases Option.some.inj hj'
              omega
          · intro hnil
            have hnil' : (s.directories.set i
                { entry with count := 0 }).mergeSort entryLe = [] := hnil
            have : s.directories.length = 0 := by
              rw [← hlen, hnil']
              rfl
            omega

theorem appInv_handle_character_input (env : Env) (c : Char) (s : AppState)
    (h : AppInv s) : AppInv (App.handle_character_input env c s) := by
  rw [App.handle_character_input]
  cases ({ s with input := s.input.push c }).view_mode with
  | Search => exact appInv_search_directories env _ ⟨h.1, h.2⟩
  | Frequent => exact appInv_show_frequent env _

theorem appInv_handle_backspace (env : Env) (s : AppState)
    (h : AppInv s) : AppInv (App.handle_backspace env s) := by
  rw [App.handle_backspace]
  cases ({ s with input := String.mk s.input.data.dropLast }).view_mode with
  | Search => exact appInv_search_directories env _ ⟨h.1, h.2⟩
  | Frequent => exact appInv_show_frequent env _

/-- **C10.** The session-state invariant — a selected index is always
strictly below the length of the current result list, and an empty list has
no selection — is preserved by every input event: character input,
backspace, all six navigation moves, the view toggle, and the
frequency-reset action. -/
theorem interactive_invariant (env : Env) (e : InputEvent) (s : AppState)
    (h : AppInv s) : AppInv (handle_event env e s) := by
  cases e with
  | char c => exact appInv_handle_character_input env c s h
  | backspace => exact appInv_handle_backspace env s h
  | nav d => exact appInv_navigate s d h
  | toggleView => exact appInv_toggle env s h
  | resetFrequency => exact appInv_reset_frequency env s h

/-- **C10 witness.** The invariant holds of the concrete 3-item state and is
preserved by a view toggle in that environment. -/
theorem interactive_invariant_witness :
    AppInv (handle_event envNone InputEvent.toggleView nav3App) :=
  interactive_invariant envNone .toggleView nav3App
    ⟨fun i hi => by
        have hi' : some 2 = some i := hi
        cases Option.some.inj hi'
        show 2 < 3
        omega,
      fun hnil => by
        have : ([⟨"/a", 2⟩, ⟨"/b", 1⟩, ⟨"/c", 0⟩] :
          List DirectoryEntry) = [] := hnil
        simp at this⟩
